import Mathlib

/-!
Verification of the statistics engine in `calc-engine/src/statistics.cpp`
(namespace `expense`).  Doubles are modelled as exact rationals (`ℚ`);
`std::sqrt`, which has no exact rational counterpart, is abstracted as a
function parameter wherever the source calls it.  Machine loops are rendered
as structural recursions over lists that read the same elements in the same
order as the C++ loops they model.
-/

set_option allowUnsafeReducibility true in
attribute [semireducible] Rat.add Rat.sub Rat.mul Rat.inv Rat.ofScientific

namespace Expense

/-- Model of `expense::StatisticsResult` (all fields default to zero, as the
C++ member initializers do). -/
structure StatisticsResult where
  sum : ℚ := 0
  mean : ℚ := 0
  median : ℚ := 0
  mode : ℚ := 0
  variance : ℚ := 0
  stddev : ℚ := 0
  min : ℚ := 0
  max : ℚ := 0
  range : ℚ := 0
  q1 : ℚ := 0
  q3 : ℚ := 0
  iqr : ℚ := 0
  count : Nat := 0
  deriving DecidableEq

/-- Model of `expense::MovingAverageResult` (`values` empty,
`current_average = 0`, `window_size = 0` by default, as in the C++ struct). -/
structure MovingAverageResult where
  values : List ℚ := []
  current_average : ℚ := 0
  window_size : Int := 0
  deriving DecidableEq

/-- Model of `expense::CorrelationResult` (coefficient and r² default to
zero, the two labels to the empty string). -/
structure CorrelationResult where
  pearson_coefficient : ℚ := 0
  r_squared : ℚ := 0
  strength : String := ""
  direction : String := ""
  deriving DecidableEq

/-- `StatisticsCalculator::sum`: 0 on empty input, else the accumulated
total (`std::accumulate` from 0.0). -/
def sum (data : List ℚ) : ℚ :=
  if data = [] then 0 else data.foldl (· + ·) 0

/-- `StatisticsCalculator::mean`: 0 on empty input, else `sum / size`. -/
def mean (data : List ℚ) : ℚ :=
  if data = [] then 0 else sum data / (data.length : ℚ)

/-- Insert one element into an already sorted list (ascending). -/
def insertSorted (a : ℚ) : List ℚ → List ℚ
  | [] => [a]
  | b :: l => if a ≤ b then a :: b :: l else b :: insertSorted a l

/-- Model of `std::sort` on a copied vector: returns the ascending sorted
permutation of the input (which over `ℚ` is unique, so the choice of sorting
algorithm is immaterial). -/
def sortQ (l : List ℚ) : List ℚ :=
  l.foldr insertSorted []

/-- `StatisticsCalculator::median`: sort a copy; average the two central
elements for an even count, take the central element for an odd count. -/
def median (data : List ℚ) : ℚ :=
  if data = [] then 0
  else
    let sorted := sortQ data
    let n := data.length
    if n % 2 = 0 then (sorted.getD (n / 2 - 1) 0 + sorted.getD (n / 2) 0) / 2
    else sorted.getD (n / 2) 0

/-- One update of the `frequency[val]++` map: bump the count of `k` if it is
already a key, otherwise append it with count 1.  The association list keeps
keys in first-insertion order. -/
def bump (k : ℚ) : List (ℚ × Nat) → List (ℚ × Nat)
  | [] => [(k, 1)]
  | (a, c) :: rest => if a = k then (a, c + 1) :: rest else (a, c) :: bump k rest

/-- The contents of the `std::unordered_map<double,int> frequency` built by
`StatisticsCalculator::mode`, as an association list in first-insertion
order.  The real container holds exactly these key/count pairs, but C++
leaves its iteration order unspecified, so theorems about `mode` quantify
over permutations of this list. -/
def freqList (data : List ℚ) : List (ℚ × Nat) :=
  data.foldl (fun m k => bump k m) []

/-- The selection loop of `StatisticsCalculator::mode`: starting from
`mode_val = init` and `max_count = 0`, replace the best pair whenever an
entry has a strictly greater count. -/
def modeAux (init : ℚ) (entries : List (ℚ × Nat)) : ℚ :=
  (entries.foldl (fun best p => if best.2 < p.2 then p else best) (init, 0)).1

/-- `StatisticsCalculator::mode` with the map entries visited in
first-insertion order (one admissible iteration order of the real
`std::unordered_map`); 0 on empty input. -/
def mode : List ℚ → ℚ
  | [] => 0
  | x :: xs => modeAux x (freqList (x :: xs))

/-- `StatisticsCalculator::variance` (population): 0 when fewer than two
observations, else the sum of squared deviations divided by `n`. -/
def variance (data : List ℚ) : ℚ :=
  if data.length < 2 then 0
  else
    let m := mean data
    ((data.map (fun v => (v - m) * (v - m))).foldl (· + ·) 0) / (data.length : ℚ)

/-- The computation `StatisticsCalculator::percentile` performs once its
guards have passed: sort a copy; `p = 0` returns the front, `p = 100` the
back; otherwise interpolate linearly between the order statistics bracketing
the fractional rank `(p/100)·(n−1)`. -/
def percentileOf (data : List ℚ) (p : ℚ) : ℚ :=
  let sorted := sortQ data
  if p = 0 then sorted.headD 0
  else if p = 100 then sorted.getLastD 0
  else
    let index := (p / 100) * ((data.length : ℚ) - 1)
    let lower := (Rat.floor index).toNat
    let upper := (Rat.ceil index).toNat
    if lower = upper then sorted.getD lower 0
    else
      let weight := index - (lower : ℚ)
      sorted.getD lower 0 * (1 - weight) + sorted.getD upper 0 * weight

/-- `StatisticsCalculator::percentile`: the empty check (`return 0.0`)
precedes the range check, which throws `std::invalid_argument` (modelled as
`Except.error`) when `p` lies outside `[0, 100]`. -/
def percentile (data : List ℚ) (p : ℚ) : Except String ℚ :=
  if data = [] then Except.ok 0
  else if p < 0 ∨ 100 < p then
    Except.error "Percentile must be between 0 and 100"
  else Except.ok (percentileOf data p)

/-- Minimum found by the `std::minmax_element` scan (0 on empty input, which
the callers exclude). -/
def minOf : List ℚ → ℚ
  | [] => 0
  | x :: xs => xs.foldl min x

/-- Maximum found by the `std::minmax_element` scan (0 on empty input, which
the callers exclude). -/
def maxOf : List ℚ → ℚ
  | [] => 0
  | x :: xs => xs.foldl max x

/-- `StatisticsCalculator::calculate_all`.  `sqrtFn` stands for `std::sqrt`.
Empty input returns the default (all-zero) struct before anything is
computed.  The source calls `percentile(data, 25)` and `percentile(data, 75)`
on the nonempty input; both arguments are inside `[0, 100]`, so the guard in
`percentile` cannot fire and the computation reduces to `percentileOf`. -/
def calculate_all (sqrtFn : ℚ → ℚ) (data : List ℚ) : StatisticsResult :=
  if data = [] then {}
  else
    let s := sum data
    let v := variance data
    let mn := minOf data
    let mx := maxOf data
    let q1v := percentileOf data 25
    let q3v := percentileOf data 75
    { count := data.length
      sum := s
      mean := s / (data.length : ℚ)
      median := median data
      mode := mode data
      variance := v
      stddev := sqrtFn v
      min := mn
      max := mx
      range := mx - mn
      q1 := q1v
      q3 := q3v
      iqr := q3v - q1v }

/-- The sliding loop of `StatisticsCalculator::moving_average`: each step
removes the element leaving the window, adds the element entering it, and
emits the new window sum divided by `w`.  It is invoked with the whole data
list (the leaving elements, read from index `i − window`) and its
`window`-element tail (the entering elements, read from index `i`). -/
def smaSlide (w : ℚ) : List ℚ → List ℚ → ℚ → List ℚ
  | out :: ls, inn :: es, s =>
      ((s - out + inn) / w) :: smaSlide w ls es (s - out + inn)
  | _, _, _ => []

/-- `StatisticsCalculator::moving_average`.  The requested window is stored
first; empty data or `window ≤ 0` returns that default-valued result.  A
window longer than the data is clamped to the data length and the clamped
value stored.  The first output is the mean of the initial window; the rest
come from the sliding loop.  `current_average` is the last output (0 if the
output is empty). -/
def moving_average (data : List ℚ) (window : Int) : MovingAverageResult :=
  if data = [] ∨ window ≤ 0 then { window_size := window }
  else
    let w : Nat := if data.length < window.toNat then data.length else window.toNat
    let initSum := (data.take w).sum
    let values := (initSum / (w : ℚ)) :: smaSlide (w : ℚ) data (data.drop w) initSum
    { values := values
      current_average := (values.getLast?).getD 0
      window_size := (w : Int) }

/-- The accumulation loop of
`StatisticsCalculator::exponential_moving_average`: each observation `x`
produces `alpha * x + (1 - alpha) * prev` where `prev` is the previous
output. -/
def emaLoop (alpha : ℚ) : List ℚ → ℚ → List ℚ
  | [], _ => []
  | x :: xs, prev =>
      (alpha * x + (1 - alpha) * prev) :: emaLoop alpha xs (alpha * x + (1 - alpha) * prev)

/-- `StatisticsCalculator::exponential_moving_average`.  `window_size` is set
to the sentinel −1 before any check, so every returned result carries it.
Empty data or `alpha` outside `(0, 1]` returns the sentinel-tagged default;
otherwise the series is seeded with the first observation and continued by
`emaLoop`, and `current_average` is the last value. -/
def exponential_moving_average (data : List ℚ) (alpha : ℚ) : MovingAverageResult :=
  match data with
  | [] => { window_size := -1 }
  | x :: xs =>
      if alpha ≤ 0 ∨ 1 < alpha then { window_size := -1 }
      else
        let values := x :: emaLoop alpha xs x
        { values := values
          current_average := (values.getLast?).getD 0
          window_size := -1 }

/-- `StatisticsCalculator::correlation`.  `sqrtFn` stands for `std::sqrt`.
Mismatched lengths or fewer than two points return the defaults with the
sentinel labels; otherwise the Pearson coefficient is accumulated in one
synchronized pass and classified against the fixed thresholds. -/
def correlation (sqrtFn : ℚ → ℚ) (x y : List ℚ) : CorrelationResult :=
  if x.length ≠ y.length ∨ x.length < 2 then
    { strength := "invalid", direction := "none" }
  else
    let mx := mean x
    let my := mean y
    let numer := ((x.zip y).map (fun q => (q.1 - mx) * (q.2 - my))).foldl (· + ·) 0
    let ssx := (x.map (fun v => (v - mx) * (v - mx))).foldl (· + ·) 0
    let ssy := (y.map (fun v => (v - my) * (v - my))).foldl (· + ·) 0
    let denom := sqrtFn (ssx * ssy)
    let r := if denom = 0 then 0 else numer / denom
    let strength :=
      if 0.8 ≤ abs r then "very_strong"
      else if 0.6 ≤ abs r then "strong"
      else if 0.4 ≤ abs r then "moderate"
      else if 0.2 ≤ abs r then "weak"
      else "very_weak"
    let direction :=
      if 0.1 < r then "positive"
      else if r < -0.1 then "negative"
      else "none"
    { pearson_coefficient := r
      r_squared := r * r
      strength := strength
      direction := direction }

/-- `StatisticsCalculator::detect_outliers`: fewer than four observations
return the empty index list; otherwise every index whose element lies
strictly outside `[q1 − threshold·iqr, q3 + threshold·iqr]` is kept, in
increasing order.  As in `calculate_all`, the source's `percentile` calls at
25 and 75 cannot throw and reduce to `percentileOf`. -/
def detect_outliers (data : List ℚ) (threshold : ℚ) : List Nat :=
  if data.length < 4 then []
  else
    let q1 := percentileOf data 25
    let q3 := percentileOf data 75
    let iqr := q3 - q1
    let lower := q1 - threshold * iqr
    let upper := q3 + threshold * iqr
    (List.range data.length).filter
      (fun i => decide (data.getD i 0 < lower ∨ upper < data.getD i 0))

/-- The month loop of `StatisticsCalculator::monthly_totals`: for every
entry of `days_in_months` it sums the next `days` amounts (fewer if the
amounts run out, none for a nonpositive `days`) and appends the total —
also when the amounts are already exhausted, in which case the total is 0. -/
def mtLoop : List ℚ → List Int → List ℚ
  | _, [] => []
  | rem, days :: rest =>
      (rem.take days.toNat).sum :: mtLoop (rem.drop days.toNat) rest

/-- `StatisticsCalculator::monthly_totals`: empty amounts or an empty month
list yield the empty result; otherwise one bucket total per month entry. -/
def monthly_totals (amounts : List ℚ) (days_in_months : List Int) : List ℚ :=
  if amounts = [] ∨ days_in_months = [] then []
  else mtLoop amounts days_in_months
end Expense

namespace Expense


lemma bump_keys (a : ℚ) (x : ℚ) :
    ∀ m : List (ℚ × Nat), x ∈ (bump a m).map Prod.fst → x = a ∨ x ∈ m.map Prod.fst := by
  intro m
  induction m with
  | nil => simp [bump]
  | cons p rest ih =>
    simp only [bump]
    split
    · intro h
      simp only [List.map_cons, List.mem_cons] at h ⊢
      tauto
    · intro h
      simp only [List.map_cons, List.mem_cons] at h ⊢
      rcases h with h | h
      · tauto
      · rcases ih h with h1 | h1 <;> tauto

lemma freq_keys (x : ℚ) :
    ∀ (data : List ℚ) (m : List (ℚ × Nat)),
      x ∈ ((data.foldl (fun m k => bump k m) m).map Prod.fst) →
      x ∈ m.map Prod.fst ∨ x ∈ data := by
  intro data
  induction data with
  | nil => intro m h; exact Or.inl h
  | cons a rest ih =>
    intro m h
    simp only [List.foldl_cons] at h
    rcases ih (bump a m) h with h1 | h1
    · rcases bump_keys a x m h1 with h2 | h2
      · exact Or.inr (by simp [h2])
      · exact Or.inl h2
    · exact Or.inr (List.mem_cons_of_mem a h1)

lemma modeAux_fold_mem (entries : List (ℚ × Nat)) :
    ∀ b : ℚ × Nat,
      (entries.foldl (fun best p => if best.2 < p.2 then p else best) b).1 = b.1
      ∨ (entries.foldl (fun best p => if best.2 < p.2 then p else best) b).1
          ∈ entries.map Prod.fst := by
  induction entries with
  | nil => intro b; exact Or.inl rfl
  | cons p rest ih =>
    intro b
    simp only [List.foldl_cons, List.map_cons]
    rcases ih (if b.2 < p.2 then p else b) with h | h
    · rw [h]
      split
      · exact Or.inr (List.mem_cons_self _ _)
      · exact Or.inl rfl
    · exact Or.inr (List.mem_cons_of_mem _ h)

/-- C10: for every nonempty input and every iteration order of the frequency
map (any permutation of its entries), the value `mode` selects is an element
of the input: it starts from `data[0]` and only ever moves to keys of the
map, all of which occur in the input. -/
theorem mode_mem_spec (x : ℚ) (xs : List ℚ) (entries : List (ℚ × Nat))
    (h : entries.Perm (freqList (x :: xs))) : modeAux x entries ∈ x :: xs := by
  unfold modeAux
  rcases modeAux_fold_mem entries (x, 0) with h1 | h1
  · rw [h1]; exact List.mem_cons_self x xs
  · have h2 : modeAux x entries ∈ (freqList (x :: xs)).map Prod.fst :=
      (h.map Prod.fst).mem_iff.mp h1
    rcases freq_keys _ (x :: xs) [] h2 with h3 | h3
    · simp at h3
    · exact h3

/-- Witness for C10 at a concrete input. -/
theorem mode_mem_spec_witness : modeAux 1 (freqList [1, 2, 2]) ∈ [(1 : ℚ), 2, 2] :=
  mode_mem_spec 1 [2, 2] (freqList [1, 2, 2]) (List.Perm.refl _)

/-- C3 counterexample: the empty check precedes the range check, so an
out-of-range percentile on the empty sequence does not fail — it returns 0. -/
theorem percentile_empty_out_of_range_ok :
    percentile ([] : List ℚ) (-1) = Except.ok 0 := rfl

/-- C3 (amended): on a nonempty sequence an out-of-range `p` fails with the
invalid-argument error; on the empty sequence `percentile` returns 0 without
failing, for every `p`. -/
theorem percentile_spec (data : List ℚ) (p : ℚ) :
    (data ≠ [] → p < 0 ∨ 100 < p →
        percentile data p = Except.error "Percentile must be between 0 and 100")
    ∧ (data = [] → percentile data p = Except.ok 0) := by
  constructor
  · intro hd hp
    simp [percentile, hd, hp]
  · intro hd
    simp [percentile, hd]

/-- Witness for C3 at concrete inputs. -/
theorem percentile_spec_witness :
    percentile [(1 : ℚ)] (-1) = Except.error "Percentile must be between 0 and 100"
    ∧ percentile ([] : List ℚ) 5 = Except.ok 0 :=
  ⟨(percentile_spec [1] (-1)).1 (by decide) (Or.inl (by decide)),
   (percentile_spec [] 5).2 rfl⟩

/-- C4 counterexample: a simple-moving-average call with requested window −1
echoes −1 in its result, which is exactly the EMA sentinel, so the two
results are not distinguishable by their window descriptors. -/
theorem window_descriptor_collision :
    (moving_average [1] (-1)).window_size
      = (exponential_moving_average [1] (1 / 2)).window_size := by decide

/-- C4 (amended): every EMA result carries the sentinel −1, and every
`moving_average` result whose requested window is nonnegative (in particular
every valid positive window) carries a nonnegative descriptor, so those two
results are distinguishable; only a negative requested window can collide
with the sentinel. -/
theorem window_descriptor_spec (data dataE : List ℚ) (window : Int) (alpha : ℚ)
    (hw : 0 ≤ window) :
    (exponential_moving_average dataE alpha).window_size = -1
    ∧ 0 ≤ (moving_average data window).window_size
    ∧ (moving_average data window).window_size
        ≠ (exponential_moving_average dataE alpha).window_size := by
  have he : (exponential_moving_average dataE alpha).window_size = -1 := by
    cases dataE with
    | nil => rfl
    | cons a l =>
      simp only [exponential_moving_average]
      split <;> rfl
  have hm : 0 ≤ (moving_average data window).window_size := by
    unfold moving_average
    split
    · exact hw
    · exact Int.natCast_nonneg _
  exact ⟨he, hm, by rw [he]; omega⟩

/-- Witness for C4 at concrete inputs. -/
theorem window_descriptor_spec_witness :
    (exponential_moving_average [(5 : ℚ)] (1 / 2)).window_size = -1
    ∧ 0 ≤ (moving_average [(1 : ℚ), 2, 3] 2).window_size
    ∧ (moving_average [(1 : ℚ), 2, 3] 2).window_size
        ≠ (exponential_moving_average [(5 : ℚ)] (1 / 2)).window_size :=
  window_descriptor_spec [1, 2, 3] [5] 2 (1 / 2) (by decide)

/-- C7: mismatched lengths, or fewer than two points in each sequence, give
the degenerate classification — zero coefficient and r², the "invalid"
strength label and the "none" direction label — rather than an error. -/
theorem correlation_degenerate_spec (sqrtFn : ℚ → ℚ) (x y : List ℚ)
    (h : x.length ≠ y.length ∨ (x.length < 2 ∧ y.length < 2)) :
    correlation sqrtFn x y =
      { pearson_coefficient := 0, r_squared := 0
        strength := "invalid", direction := "none" } := by
  have hc : x.length ≠ y.length ∨ x.length < 2 := by
    rcases h with h | h
    · exact Or.inl h
    · exact Or.inr h.1
  unfold correlation
  rw [if_pos hc]

/-- Witness for C7 at a concrete input. -/
theorem correlation_degenerate_spec_witness :
    correlation (fun q => q) [(1 : ℚ)] [2, 3] =
      { pearson_coefficient := 0, r_squared := 0
        strength := "invalid", direction := "none" } :=
  correlation_degenerate_spec (fun q => q) [1] [2, 3] (Or.inl (by decide))

/-- C8: the summary returned by `calculate_all` satisfies
`range = max − min` and `iqr = q3 − q1`, its count is the input length, and
on empty input every field is zero. -/
theorem calculate_all_spec (sqrtFn : ℚ → ℚ) (data : List ℚ) :
    (calculate_all sqrtFn data).range
        = (calculate_all sqrtFn data).max - (calculate_all sqrtFn data).min
    ∧ (calculate_all sqrtFn data).iqr
        = (calculate_all sqrtFn data).q3 - (calculate_all sqrtFn data).q1
    ∧ (calculate_all sqrtFn data).count = data.length
    ∧ (data = [] →
        (calculate_all sqrtFn data).sum = 0
        ∧ (calculate_all sqrtFn data).mean = 0
        ∧ (calculate_all sqrtFn data).median = 0
        ∧ (calculate_all sqrtFn data).mode = 0
        ∧ (calculate_all sqrtFn data).variance = 0
        ∧ (calculate_all sqrtFn data).stddev = 0
        ∧ (calculate_all sqrtFn data).min = 0
        ∧ (calculate_all sqrtFn data).max = 0
        ∧ (calculate_all sqrtFn data).range = 0
        ∧ (calculate_all sqrtFn data).q1 = 0
        ∧ (calculate_all sqrtFn data).q3 = 0
        ∧ (calculate_all sqrtFn data).iqr = 0
        ∧ (calculate_all sqrtFn data).count = 0) := by
  by_cases h : data = []
  · subst h
    simp [calculate_all]
  · simp [calculate_all, h]

/-- Witness for C8 at concrete inputs (identity in place of `std::sqrt`). -/
theorem calculate_all_spec_witness :
    (calculate_all (fun q => q) [(10 : ℚ), 20]).range
        = (calculate_all (fun q => q) [(10 : ℚ), 20]).max
          - (calculate_all (fun q => q) [(10 : ℚ), 20]).min
    ∧ (calculate_all (fun q => q) ([] : List ℚ)).count = 0 :=
  ⟨(calculate_all_spec (fun q => q) [10, 20]).1,
   ((calculate_all_spec (fun q => q) []).2.2.2 rfl).2.2.2.2.2.2.2.2.2.2.2.2⟩

lemma emaLoop_length (alpha : ℚ) :
    ∀ (l : List ℚ) (prev : ℚ), (emaLoop alpha l prev).length = l.length := by
  intro l
  induction l with
  | nil => intro prev; rfl
  | cons x xs ih => intro prev; simp [emaLoop, ih]

lemma emaLoop_getD (alpha : ℚ) :
    ∀ (l : List ℚ) (prev : ℚ) (i : Nat), i < l.length →
      (emaLoop alpha l prev).getD i 0
        = alpha * l.getD i 0 + (1 - alpha) * ((prev :: emaLoop alpha l prev).getD i 0) := by
  intro l
  induction l with
  | nil => intro prev i h; simp at h
  | cons x xs ih =>
    intro prev i h
    cases i with
    | zero => simp [emaLoop]
    | succ n =>
      simp only [emaLoop, List.getD_cons_succ]
      exact ih _ n (by simpa using h)

/-- C6: for `alpha` in `(0, 1]` the EMA of a nonempty list has one value per
observation, its first value is the first observation, and each later value
obeys `alpha·obs + (1 − alpha)·previous`; out-of-range `alpha` or empty data
produce an empty series. -/
theorem exponential_moving_average_spec (alpha x : ℚ) (xs data : List ℚ) :
    (0 < alpha → alpha ≤ 1 →
        (exponential_moving_average (x :: xs) alpha).values.length = (x :: xs).length
        ∧ (exponential_moving_average (x :: xs) alpha).values.head? = some x
        ∧ ∀ i, i + 1 < (x :: xs).length →
            (exponential_moving_average (x :: xs) alpha).values.getD (i + 1) 0
              = alpha * (x :: xs).getD (i + 1) 0
                + (1 - alpha) * (exponential_moving_average (x :: xs) alpha).values.getD i 0)
    ∧ (alpha ≤ 0 ∨ 1 < alpha ∨ data = [] →
        (exponential_moving_average data alpha).values = []) := by
  constructor
  · intro h1 h2
    have hcond : ¬(alpha ≤ 0 ∨ 1 < alpha) := by
      push_neg
      exact ⟨h1, h2⟩
    simp only [exponential_moving_average, if_neg hcond]
    refine ⟨by simp [emaLoop_length], rfl, ?_⟩
    intro i hi
    have hx : i < xs.length := by simpa using hi
    simp only [List.getD_cons_succ]
    exact emaLoop_getD alpha xs x i hx
  · intro h
    cases data with
    | nil => rfl
    | cons a l =>
      have hcond : alpha ≤ 0 ∨ 1 < alpha := by
        rcases h with h | h | h
        · exact Or.inl h
        · exact Or.inr h
        · simp at h
      simp [exponential_moving_average, hcond]

/-- Witness for C6 at concrete inputs. -/
theorem exponential_moving_average_spec_witness :
    ((exponential_moving_average [(10 : ℚ), 20, 30] (1 / 2)).values.length
        = ([(10 : ℚ), 20, 30]).length
      ∧ (exponential_moving_average [(10 : ℚ), 20, 30] (1 / 2)).values.head? = some 10
      ∧ ∀ i, i + 1 < ([(10 : ℚ), 20, 30]).length →
          (exponential_moving_average [(10 : ℚ), 20, 30] (1 / 2)).values.getD (i + 1) 0
            = (1 / 2) * ([(10 : ℚ), 20, 30]).getD (i + 1) 0
              + (1 - 1 / 2)
                * (exponential_moving_average [(10 : ℚ), 20, 30] (1 / 2)).values.getD i 0)
    ∧ (exponential_moving_average ([] : List ℚ) (1 / 2)).values = [] :=
  ⟨(exponential_moving_average_spec (1 / 2) 10 [20, 30] []).1 (by decide) (by decide),
   (exponential_moving_average_spec (1 / 2) 10 [20, 30] []).2 (Or.inr (Or.inr rfl))⟩

lemma mtLoop_spec :
    ∀ (days : List Int) (rem : List ℚ),
      mtLoop rem days
        = (List.range days.length).map
            (fun k => ((rem.drop (((days.take k).map Int.toNat).sum)).take
                ((days.getD k 0).toNat)).sum) := by
  intro days
  induction days with
  | nil => intro rem; rfl
  | cons d ds ih =>
    intro rem
    simp only [mtLoop, ih (rem.drop d.toNat), List.length_cons, List.range_succ_eq_map,
      List.map_cons, List.map_map]
    refine congrArg₂ List.cons ?_ ?_
    · simp
    · apply List.map_congr_left
      intro k hk
      simp only [Function.comp_apply, List.take_succ_cons, List.map_cons, List.sum_cons,
        List.getD_cons_succ, List.drop_drop]

/-- C1 counterexample: with a single amount and two buckets of size one, the
second bucket begins after the amounts are exhausted, yet the result still
contains an entry (0) for it — the loop does not stop early. -/
theorem monthly_totals_not_truncated :
    monthly_totals [1] [1, 1] = [1, 0] ∧ monthly_totals [1] [1, 1] ≠ [1] := by
  constructor
  · decide
  · decide

/-- C1 (amended): empty amounts or an empty bucket list give an empty
result; otherwise the result has exactly one entry per bucket size — entry
`k` is the sum of the `k`-th consecutive slice of the amounts (short at the
point of exhaustion, and 0 for every bucket that begins after the amounts
are exhausted). -/
theorem monthly_totals_spec (amounts : List ℚ) (days : List Int) :
    (amounts = [] ∨ days = [] → monthly_totals amounts days = [])
    ∧ (amounts ≠ [] → days ≠ [] →
        monthly_totals amounts days
          = (List.range days.length).map
              (fun k => ((amounts.drop (((days.take k).map Int.toNat).sum)).take
                  ((days.getD k 0).toNat)).sum)) := by
  constructor
  · intro h
    simp [monthly_totals, h]
  · intro ha hd
    have hcond : ¬(amounts = [] ∨ days = []) := by
      push_neg
      exact ⟨ha, hd⟩
    simp only [monthly_totals, if_neg hcond]
    exact mtLoop_spec days amounts

/-- Witness for C1 at concrete inputs. -/
theorem monthly_totals_spec_witness :
    monthly_totals [(5 : ℚ), 6, 7] [1, 2]
      = (List.range ([1, 2] : List Int).length).map
          (fun k => (([(5 : ℚ), 6, 7].drop (((([1, 2] : List Int).take k).map Int.toNat).sum)).take
              ((([1, 2] : List Int).getD k 0).toNat)).sum)
    ∧ monthly_totals [(5 : ℚ), 6, 7] [1, 2] = [5, 13] :=
  ⟨(monthly_totals_spec [5, 6, 7] [1, 2]).2 (by decide) (by decide), by decide⟩

lemma smaSlide_nil_right (w s : ℚ) : ∀ l : List ℚ, smaSlide w l [] s = [] := by
  intro l
  cases l <;> rfl

lemma smaSlide_cons (w out inn s : ℚ) (ls es : List ℚ) :
    smaSlide w (out :: ls) (inn :: es) s
      = ((s - out + inn) / w) :: smaSlide w ls es (s - out + inn) := rfl

lemma smaSlide_spec (data : List ℚ) :
    ∀ (n w j : ℕ), 0 < w → j + w + n = data.length →
      smaSlide (w : ℚ) (data.drop j) (data.drop (j + w)) (((data.drop j).take w).sum)
        = (List.range n).map
            (fun k => (((data.drop (j + 1 + k)).take w).sum) / (w : ℚ)) := by
  intro n
  induction n with
  | zero =>
    intro w j hw hj
    have hd : data.drop (j + w) = [] := List.drop_eq_nil_of_le (by omega)
    rw [hd, smaSlide_nil_right]
    rfl
  | succ m ih =>
    intro w j hw hj
    have hjw : j + w < data.length := by omega
    have hj1 : j < data.length := by omega
    obtain ⟨v, rfl⟩ : ∃ v, w = v + 1 := ⟨w - 1, by omega⟩
    have hv : v < (data.drop (j + 1)).length := by
      rw [List.length_drop]
      omega
    have hd1 : data.drop j = data[j] :: data.drop (j + 1) :=
      List.drop_eq_getElem_cons hj1
    have hd2 : data.drop (j + (v + 1))
        = data[j + (v + 1)] :: data.drop (j + (v + 1) + 1) :=
      List.drop_eq_getElem_cons hjw
    have hidx : (data.drop (j + 1))[v] = data[j + (v + 1)] := by
      rw [List.getElem_drop]
      congr 1
      omega
    have hsum : ((data[j] :: data.drop (j + 1)).take (v + 1)).sum
          - data[j] + data[j + (v + 1)]
        = ((data.drop (j + 1)).take (v + 1)).sum := by
      rw [List.take_succ_cons, List.sum_cons, List.sum_take_succ _ v hv, hidx]
      ring
    rw [hd1, hd2, smaSlide_cons, hsum]
    have hstep : data.drop (j + (v + 1) + 1) = data.drop ((j + 1) + (v + 1)) := by
      congr 1
      omega
    rw [hstep, ih (v + 1) (j + 1) hw (by omega)]
    rw [List.range_succ_eq_map, List.map_cons, List.map_map]
    refine congrArg₂ List.cons ?_ ?_
    · simp
    · apply List.map_congr_left
      intro k hk
      simp only [Function.comp_apply]
      have : j + 1 + 1 + k = j + 1 + (k + 1) := by omega
      rw [this]

/-- C5: for nonempty data and a positive requested window, the effective
window `w` is the requested window clamped to the data length and is
reported back in `window_size`; the values are exactly the means of the `w`
consecutive inputs starting at positions `0 … n − w` (equivalently ending at
positions `w − 1 + k`), so there are `n − w + 1` of them; and
`current_average` is the last value. -/
theorem moving_average_spec (data : List ℚ) (window : Int)
    (hd : data ≠ []) (hw : 0 < window) :
    (moving_average data window).window_size = ((min window.toNat data.length : ℕ) : Int)
    ∧ (moving_average data window).values
        = (List.range (data.length - min window.toNat data.length + 1)).map
            (fun k => (((data.drop k).take (min window.toNat data.length)).sum)
                / ((min window.toNat data.length : ℕ) : ℚ))
    ∧ (moving_average data window).values.getLast?
        = some (moving_average data window).current_average := by
  have hcond : ¬(data = [] ∨ window ≤ 0) := by
    push_neg
    exact ⟨hd, hw⟩
  have hlen : 0 < data.length := List.length_pos.mpr hd
  have htn : 0 < window.toNat := by omega
  have hmin : (if data.length < window.toNat then data.length else window.toNat)
      = min window.toNat data.length := by
    split <;> omega
  have hwpos : 0 < min window.toNat data.length := by omega
  have hwle : min window.toNat data.length ≤ data.length := by omega
  have hslide := smaSlide_spec data (data.length - min window.toNat data.length)
    (min window.toNat data.length) 0 hwpos (by omega)
  simp only [List.drop_zero, Nat.zero_add] at hslide
  refine ⟨?_, ?_, ?_⟩
  · simp only [moving_average, if_neg hcond, hmin]
  · simp only [moving_average, if_neg hcond, hmin]
    rw [hslide, List.range_succ_eq_map, List.map_cons, List.map_map]
    refine congrArg₂ List.cons ?_ ?_
    · simp
    · apply List.map_congr_left
      intro k hk
      simp only [Function.comp_apply, Nat.succ_eq_add_one]
      have heq : 1 + k = k + 1 := by omega
      rw [heq]
  · simp only [moving_average, if_neg hcond, hmin]
    rw [List.getLast?_eq_getLast _ (List.cons_ne_nil _ _)]
    rfl

/-- Witness for C5 at the worked example from the specification. -/
theorem moving_average_spec_witness :
    (moving_average [10, 20, 30, 40, 50] 3).values = [20, 30, 40]
    ∧ (moving_average [10, 20, 30, 40, 50] 3).window_size = 3
    ∧ (moving_average [10, 20, 30, 40, 50] 3).values.getLast?
        = some (moving_average [10, 20, 30, 40, 50] 3).current_average := by
  have h := moving_average_spec [10, 20, 30, 40, 50] 3 (by decide) (by decide)
  refine ⟨?_, ?_, h.2.2⟩
  · rw [h.2.1]
    decide
  · rw [h.1]
    decide

/-- C9: fewer than four observations give an empty outlier list; otherwise
the result contains exactly the indices (in increasing order, i.e. original
input order) of the elements strictly below `q1 − t·iqr` or strictly above
`q3 + t·iqr`, with the quartiles computed by the percentile routine. -/
theorem detect_outliers_spec (data : List ℚ) (t : ℚ) :
    (data.length < 4 → detect_outliers data t = [])
    ∧ (4 ≤ data.length →
        (∀ i, i ∈ detect_outliers data t ↔
            i < data.length
            ∧ (data.getD i 0 < percentileOf data 25
                  - t * (percentileOf data 75 - percentileOf data 25)
               ∨ percentileOf data 75 + t * (percentileOf data 75 - percentileOf data 25)
                  < data.getD i 0))
        ∧ (detect_outliers data t).Pairwise (· < ·)) := by
  constructor
  · intro h
    simp [detect_outliers, h]
  · intro h
    have hcond : ¬(data.length < 4) := by omega
    constructor
    · intro i
      simp only [detect_outliers, if_neg hcond]
      rw [List.mem_filter, List.mem_range, decide_eq_true_eq]
    · simp only [detect_outliers, if_neg hcond]
      exact List.Pairwise.filter _ (List.pairwise_lt_range _)

/-- Witness for C9 at the worked example from the specification: index 5 is
reported and index 0 is not. -/
theorem detect_outliers_spec_witness :
    5 ∈ detect_outliers [10, 20, 30, 40, 50, 200] (3 / 2)
    ∧ ¬(0 ∈ detect_outliers [10, 20, 30, 40, 50, 200] (3 / 2)) := by
  have h := (detect_outliers_spec [10, 20, 30, 40, 50, 200] (3 / 2)).2 (by decide)
  constructor
  · exact (h.1 5).mpr (by decide)
  · intro h0
    exact absurd ((h.1 0).mp h0) (by decide)

end Expense
